import Mathlib

/-!
A shallow embedding of the URL-shortener service implemented in
`src/swagger.ts`, together with proofs about its operations.

The service keeps two tables (`urls` and `analytics`, see `schema.sql`)
in a transactional SQL store and exposes five operations:

* `POST /create`      — allocate a short identifier for a URL (`create`);
* `GET /:id`          — redirect and record one click event (`redirect`);
* `GET /analytics`    — paginated per-identifier summaries (`analyticsList`);
* `GET /analytics/:id`— per-identifier event detail (`getDetail`);
* `DELETE /analytics` — bulk purge of identifiers (`purge`).

Tables are embedded as Lean lists held in a `Store`; each route handler
becomes a pure function from a store (plus the request data and the
values the runtime supplies: the generated random identifier and the
current time) to a result and a new store.  SQL aggregates (`MAX`, `MIN`,
`COUNT`, `GROUP BY`, `ORDER BY`, `LIMIT`/`OFFSET`) are embedded
list-by-list below; `TEXT` values compare byte-wise in SQLite, which for
the ASCII data at hand is the lexicographic order on the underlying
character lists.
-/

namespace UrlShortener

/-- A row of the `urls` table: `id TEXT PRIMARY KEY, original_url TEXT,
created_at TIMESTAMP`. -/
structure UrlRecord where
  id : String
  original_url : String
  created_at : Nat
deriving Repr, DecidableEq

/-- A row of the `analytics` table: autoincrement surrogate key, the
referenced short id, the four request-metadata columns and a timestamp. -/
structure ClickEvent where
  id : Nat
  short_id : String
  ip : String
  user_agent : String
  country_code : String
  referrer : String
  timestamp : Nat
deriving Repr, DecidableEq

/-- The database state: both tables plus the autoincrement counter that
feeds `analytics.id`. -/
structure Store where
  urls : List UrlRecord
  events : List ClickEvent
  nextEventId : Nat
deriving Repr, DecidableEq

/-- A scheme character as accepted by URL parsers: ALPHA / DIGIT / `+` /
`-` / `.`. -/
def isSchemeChar (c : Char) : Bool :=
  c.isAlpha || c.isDigit || c == '+' || c == '-' || c == '.'

/-- Modelled from the spec: `isValidUrl` in `swagger.ts` delegates to the
platform URL parser (`new URL(url)` succeeds exactly on well-formed
absolute URLs); the parser itself is runtime code, not part of this
repository.  We model its acceptance condition: a nonempty scheme whose
first character is alphabetic and whose remaining characters are scheme
characters, followed by a colon and the rest of the string. -/
def isValidUrl (url : String) : Bool :=
  let scheme := url.data.takeWhile (fun c => c != ':')
  let rest := url.data.dropWhile (fun c => c != ':')
  !scheme.isEmpty && (scheme.headD 'a').isAlpha && scheme.all isSchemeChar && !rest.isEmpty

/-- `SELECT ... FROM urls WHERE id = ?` followed by `.first()`. -/
def findUrlById (s : Store) (id : String) : Option UrlRecord :=
  s.urls.find? (fun r => r.id == id)

/-- `SELECT id FROM urls WHERE original_url = ?` followed by `.first()`. -/
def findUrlByOriginal (s : Store) (url : String) : Option UrlRecord :=
  s.urls.find? (fun r => r.original_url == url)

/-- Outcome of `POST /create`: HTTP 200 (with the allocated id and the
`existing` flag), 400, 409 or 500. -/
inductive CreateResult where
  | ok (id : String) (existing : Bool)
  | invalidInput
  | conflict
  | internal
deriving Repr, DecidableEq

/-- `INSERT INTO urls (id, original_url) VALUES (?, ?)`.  The store
enforces the `PRIMARY KEY` uniqueness constraint on `urls.id`: the insert
fails (`none`) exactly when a row with this id is already present. -/
def insertUrl (s : Store) (id url : String) (now : Nat) : Option Store :=
  if s.urls.any (fun r => r.id == id) then none
  else some { s with urls := s.urls ++ [{ id := id, original_url := url, created_at := now }] }

/-- The `POST /create` handler.  `genId` is the 7-character random
identifier the `nanoid` generator would supply; `now` is the creation
time.  Mirrors the route body: validate the URL; with a (truthy)
`custom_id` do the conflict precheck, otherwise the dedup-by-URL lookup;
then insert, mapping any insert failure to the 500 branch of the
`try/catch`. -/
def create (s : Store) (url : String) (custom_id : Option String) (genId : String) (now : Nat) :
    CreateResult × Store :=
  if url == "" || !isValidUrl url then (.invalidInput, s)
  else
    let cid := custom_id.getD ""
    if cid != "" then
      match findUrlById s cid with
      | some _ => (.conflict, s)
      | none =>
        match insertUrl s cid url now with
        | some s' => (.ok cid false, s')
        | none => (.internal, s)
    else
      match findUrlByOriginal s url with
      | some r => (.ok r.id true, s)
      | none =>
        match insertUrl s genId url now with
        | some s' => (.ok genId false, s')
        | none => (.internal, s)

/-- The metadata the redirect route reads from the request headers, each
already defaulted to the empty string when the header is absent. -/
structure RequestMeta where
  ip : String
  user_agent : String
  country_code : String
  referrer : String
deriving Repr, DecidableEq

/-- Outcome of `GET /:id`: a 302 redirect or a 404. -/
inductive RedirectResult where
  | redirect (location : String)
  | notFound
deriving Repr, DecidableEq

/-- The `GET /:id` handler: look the id up, and if present append one
`analytics` row (with the autoincrement key and the current time) before
responding with the stored destination. -/
def redirect (s : Store) (id : String) (m : RequestMeta) (now : Nat) :
    RedirectResult × Store :=
  match findUrlById s id with
  | none => (.notFound, s)
  | some r =>
    (.redirect r.original_url,
      { s with
        events := s.events ++
          [{ id := s.nextEventId, short_id := id, ip := m.ip, user_agent := m.user_agent,
             country_code := m.country_code, referrer := m.referrer, timestamp := now }]
        nextEventId := s.nextEventId + 1 })

/-- `SELECT ... FROM analytics WHERE short_id = ?` (in table order). -/
def eventsFor (s : Store) (id : String) : List ClickEvent :=
  s.events.filter (fun e => e.short_id == id)

/-- The number of recorded clicks for an identifier. -/
def clickCount (s : Store) (id : String) : Nat :=
  (eventsFor s id).length

/-- Outcome of `DELETE /analytics` (past the credential check): HTTP 200
echoing the ids, or 400 for an empty/invalid id list. -/
inductive PurgeResult where
  | success (ids : List String)
  | invalidInput
deriving Repr, DecidableEq

/-- The `DELETE /analytics` handler: reject an empty id list, otherwise
run the two `DELETE ... WHERE ... IN (...)` statements as one batch. -/
def purge (s : Store) (ids : List String) : PurgeResult × Store :=
  if ids.isEmpty then (.invalidInput, s)
  else
    (.success ids,
      { s with
        events := s.events.filter (fun e => !ids.contains e.short_id)
        urls := s.urls.filter (fun r => !ids.contains r.id) })

/-- The `ORDER BY timestamp DESC` comparison on events. -/
def evDescLe (a b : ClickEvent) : Bool :=
  decide (b.timestamp ≤ a.timestamp)

/-- `ORDER BY timestamp DESC` on a list of events. -/
def sortEventsDesc (l : List ClickEvent) : List ClickEvent :=
  l.mergeSort evDescLe

/-- The JSON body of `GET /analytics/:id`. -/
structure DetailResponse where
  id : String
  original_url : Option String
  click_count : Nat
  analytics : List ClickEvent
deriving Repr, DecidableEq

/-- The `GET /analytics/:id` handler (past the credential check): the url
lookup (`urlResult?.original_url || null`, so an empty string also maps
to `null`), plus the 1000 most recent events, newest first. -/
def getDetail (s : Store) (id : String) : DetailResponse :=
  let rows := (sortEventsDesc (eventsFor s id)).take 1000
  { id := id
    original_url :=
      match findUrlById s id with
      | some r => if r.original_url == "" then none else some r.original_url
      | none => none
    click_count := rows.length
    analytics := rows }

/-- SQL `MAX` over a column, with a default for the empty list (SQL would
give `NULL`; every use below is on a nonempty group). -/
def sqlMax {α : Type} [LinearOrder α] (d : α) : List α → α
  | [] => d
  | x :: xs => xs.foldl max x

/-- SQL `MIN` over a column, with a default for the empty list. -/
def sqlMin {α : Type} [LinearOrder α] (d : α) : List α → α
  | [] => d
  | x :: xs => xs.foldl min x

/-- SQL `MAX` over a `TEXT` column: byte-wise (here: character-list
lexicographic) comparison. -/
def strMax (l : List String) : String :=
  ⟨sqlMax [] (l.map String.data)⟩

/-- The rows produced by `FROM analytics AS a1 JOIN urls AS u ON
a1.short_id = u.id`: every event paired with every url row whose id
matches it. -/
def joinedRows (s : Store) : List (ClickEvent × UrlRecord) :=
  s.events.flatMap (fun e => (s.urls.filter (fun r => r.id == e.short_id)).map (fun r => (e, r)))

/-- The distinct `GROUP BY a1.short_id, u.original_url` keys of the
joined rows. -/
def groupKeys (s : Store) : List (String × String) :=
  ((joinedRows s).map (fun p => (p.1.short_id, p.2.original_url))).dedup

/-- The events of the joined rows belonging to one group key. -/
def groupFor (s : Store) (k : String × String) : List ClickEvent :=
  ((joinedRows s).filter (fun p => p.1.short_id == k.1 && p.2.original_url == k.2)).map
    (fun p => p.1)

/-- One row of the `GET /analytics` summary. -/
structure SummaryRow where
  short_id : String
  original_url : String
  click_count : Nat
  last_clicked : Nat
  first_clicked : Nat
  latest_referrer : String
  country_code : String
deriving Repr, DecidableEq

/-- The `SELECT` list of the summary query for one group: `COUNT(*)`,
`MAX(timestamp)`, `MIN(timestamp)`, the `MAX(CASE WHEN timestamp =
(SELECT MAX(timestamp) FROM analytics AS a2 WHERE a2.short_id =
a1.short_id) THEN referrer ELSE NULL END)` aggregate (the correlated
subquery ranges over the whole `analytics` table, not the joined group),
and `MAX(country_code)`. -/
def rowFor (s : Store) (k : String × String) : SummaryRow :=
  let grp := groupFor s k
  let maxTsAll := sqlMax 0 ((eventsFor s k.1).map (fun e => e.timestamp))
  { short_id := k.1
    original_url := k.2
    click_count := grp.length
    last_clicked := sqlMax 0 (grp.map (fun e => e.timestamp))
    first_clicked := sqlMin 0 (grp.map (fun e => e.timestamp))
    latest_referrer :=
      strMax ((grp.filter (fun e => e.timestamp == maxTsAll)).map (fun e => e.referrer))
    country_code := strMax (grp.map (fun e => e.country_code)) }

/-- The grouped summary rows, before `ORDER BY` / `LIMIT` / `OFFSET`. -/
def summaryRows (s : Store) : List SummaryRow :=
  (groupKeys s).map (rowFor s)

/-- The `ORDER BY last_clicked ASC` (resp. `DESC`) comparison. -/
def rowLe (asc : Bool) (a b : SummaryRow) : Bool :=
  if asc then decide (a.last_clicked ≤ b.last_clicked)
  else decide (b.last_clicked ≤ a.last_clicked)

/-- The summary rows ordered by `last_clicked` in the requested
direction. -/
def sortedSummaryRows (s : Store) (asc : Bool) : List SummaryRow :=
  (summaryRows s).mergeSort (rowLe asc)

/-- ASCII lower-casing, as `toLowerCase` acts on the ASCII sort values at
hand. -/
def lowerAscii (s : String) : String :=
  ⟨s.data.map Char.toLower⟩

/-- The sort-parameter normalisation of the route:
`(c.req.query('sort') || 'desc').toLowerCase() === 'asc'` — `true` means
ascending, everything else (absent, empty, any other value) means
descending. -/
def effSort (sortQ : Option String) : Bool :=
  lowerAscii
      (match sortQ with
       | none => "desc"
       | some v => if v == "" then "desc" else v) == "asc"

/-- `SELECT COUNT(DISTINCT short_id) FROM analytics` — over the whole
table, with no join against `urls`. -/
def countDistinctShortIds (s : Store) : Nat :=
  ((s.events.map (fun e => e.short_id)).dedup).length

/-- The JSON body of `GET /analytics`. -/
structure ListResponse where
  page : Int
  limit : Int
  sortAsc : Bool
  total : Nat
  data : List SummaryRow
deriving Repr, DecidableEq

/-- The `GET /analytics` handler (past the credential check).  `pageQ`
and `limitQ` are the parsed integer query parameters (absent ones fall
back to 1 and 50): `page = Math.max(1, ...)`,
`limit = Math.max(1, Math.min(..., 500))`,
`offset = (page - 1) * limit`, and the page is the sorted summary sliced
by `LIMIT ? OFFSET ?`. -/
def analyticsList (s : Store) (pageQ limitQ : Option Int) (sortQ : Option String) :
    ListResponse :=
  let page := max 1 (pageQ.getD 1)
  let limit := max 1 (min (limitQ.getD 50) 500)
  let asc := effSort sortQ
  { page := page
    limit := limit
    sortAsc := asc
    total := countDistinctShortIds s
    data := ((sortedSummaryRows s asc).drop ((page - 1) * limit).toNat).take limit.toNat }

/-! ### Helper lemmas about the SQL aggregate embeddings -/

theorem foldl_max_mem {α : Type} [LinearOrder α] (xs : List α) (a : α) :
    xs.foldl max a = a ∨ xs.foldl max a ∈ xs := by
  induction xs generalizing a with
  | nil => left; rfl
  | cons x xs ih =>
    rw [List.foldl_cons]
    rcases ih (max a x) with h | h
    · rcases max_choice a x with hm | hm
      · left; rw [h, hm]
      · right; rw [h, hm]; exact List.mem_cons_self x xs
    · right; exact List.mem_cons_of_mem x h

theorem le_foldl_max {α : Type} [LinearOrder α] (xs : List α) (a : α) :
    a ≤ xs.foldl max a := by
  induction xs generalizing a with
  | nil => exact le_refl a
  | cons x xs ih =>
    rw [List.foldl_cons]
    exact le_trans (le_max_left a x) (ih (max a x))

theorem mem_le_foldl_max {α : Type} [LinearOrder α] (xs : List α) (a : α) :
    ∀ x ∈ xs, x ≤ xs.foldl max a := by
  induction xs generalizing a with
  | nil => intro x hx; cases hx
  | cons y ys ih =>
    intro x hx
    rw [List.foldl_cons]
    rcases List.mem_cons.mp hx with rfl | hx'
    · exact le_trans (le_max_right a x) (le_foldl_max ys (max a x))
    · exact ih (max a y) x hx'

theorem foldl_min_mem {α : Type} [LinearOrder α] (xs : List α) (a : α) :
    xs.foldl min a = a ∨ xs.foldl min a ∈ xs := by
  induction xs generalizing a with
  | nil => left; rfl
  | cons x xs ih =>
    rw [List.foldl_cons]
    rcases ih (min a x) with h | h
    · rcases min_choice a x with hm | hm
      · left; rw [h, hm]
      · right; rw [h, hm]; exact List.mem_cons_self x xs
    · right; exact List.mem_cons_of_mem x h

theorem foldl_min_le {α : Type} [LinearOrder α] (xs : List α) (a : α) :
    xs.foldl min a ≤ a := by
  induction xs generalizing a with
  | nil => exact le_refl a
  | cons x xs ih =>
    rw [List.foldl_cons]
    exact le_trans (ih (min a x)) (min_le_left a x)

theorem foldl_min_le_mem {α : Type} [LinearOrder α] (xs : List α) (a : α) :
    ∀ x ∈ xs, xs.foldl min a ≤ x := by
  induction xs generalizing a with
  | nil => intro x hx; cases hx
  | cons y ys ih =>
    intro x hx
    rw [List.foldl_cons]
    rcases List.mem_cons.mp hx with rfl | hx'
    · exact le_trans (foldl_min_le ys (min a x)) (min_le_right a x)
    · exact ih (min a y) x hx'

theorem sqlMax_mem {α : Type} [LinearOrder α] (d : α) {l : List α} (h : l ≠ []) :
    sqlMax d l ∈ l := by
  match l with
  | [] => exact absurd rfl h
  | x :: xs =>
    rcases foldl_max_mem xs x with h' | h'
    · rw [sqlMax, h']; exact List.mem_cons_self x xs
    · rw [sqlMax]; exact List.mem_cons_of_mem x h'

theorem le_sqlMax {α : Type} [LinearOrder α] (d : α) {l : List α} :
    ∀ x ∈ l, x ≤ sqlMax d l := by
  intro x hx
  match l with
  | [] => cases hx
  | y :: ys =>
    rcases List.mem_cons.mp hx with rfl | hx'
    · exact le_foldl_max ys x
    · exact mem_le_foldl_max ys y x hx'

theorem sqlMin_mem {α : Type} [LinearOrder α] (d : α) {l : List α} (h : l ≠ []) :
    sqlMin d l ∈ l := by
  match l with
  | [] => exact absurd rfl h
  | x :: xs =>
    rcases foldl_min_mem xs x with h' | h'
    · rw [sqlMin, h']; exact List.mem_cons_self x xs
    · rw [sqlMin]; exact List.mem_cons_of_mem x h'

theorem sqlMin_le {α : Type} [LinearOrder α] (d : α) {l : List α} :
    ∀ x ∈ l, sqlMin d l ≤ x := by
  intro x hx
  match l with
  | [] => cases hx
  | y :: ys =>
    rcases List.mem_cons.mp hx with rfl | hx'
    · exact foldl_min_le ys x
    · exact foldl_min_le_mem ys y x hx'

theorem strMax_mem {l : List String} (h : l ≠ []) : strMax l ∈ l := by
  have hl : l.map String.data ≠ [] := by
    intro hm
    exact h (List.map_eq_nil_iff.mp hm)
  have hmem := sqlMax_mem [] hl
  rcases List.mem_map.mp hmem with ⟨s, hs, hd⟩
  have : strMax l = s := by
    apply String.ext
    rw [hd]
    rfl
  rw [this]
  exact hs

theorem le_strMax {l : List String} : ∀ x ∈ l, x.data ≤ (strMax l).data := by
  intro x hx
  exact le_sqlMax [] x.data (List.mem_map_of_mem String.data hx)

theorem isValidUrl_ne_empty {url : String} (hv : isValidUrl url = true) : url ≠ "" := by
  rintro rfl
  exact absurd hv (by decide)

/-! ### C9 — invalid URLs are rejected before any store access -/

/-- C9: a create request whose url is missing (empty) or fails URL
validation yields `InvalidInput`, leaves the store unchanged, and its
result does not depend on the store at all (no lookup or insert is
performed). -/
theorem create_invalid_url_rejected (s s' : Store) (url : String)
    (custom_id : Option String) (genId genId' : String) (now now' : Nat)
    (h : url = "" ∨ isValidUrl url = false) :
    create s url custom_id genId now = (.invalidInput, s) ∧
      (create s url custom_id genId now).1 = (create s' url custom_id genId' now').1 := by
  have hg : (url == "" || !isValidUrl url) = true := by
    rcases h with h | h <;> simp [h]
  constructor
  · simp [create, hg]
  · simp [create, hg]

/-- Witness for C9 at a concrete malformed URL. -/
theorem create_invalid_url_rejected_witness :
    create ⟨[], [], 0⟩ "notaurl" none "abc1234" 3 = (.invalidInput, ⟨[], [], 0⟩) :=
  (create_invalid_url_rejected ⟨[], [], 0⟩ ⟨[⟨"q", "https://q.example", 1⟩], [], 0⟩
    "notaurl" none "abc1234" "zzzzzzz" 3 9 (.inr (by decide))).1

/-! ### C7 — custom-id conflicts -/

/-- C7: a create request with a (nonempty, hence truthy) `custom_id` that
is already taken fails with `Conflict` and leaves the store — in
particular the existing record and its `original_url` — unchanged; the
dedup-by-URL fallback is never consulted on this path (the result is
`Conflict` for every store satisfying the hypotheses, whether or not a
record with the same `original_url` exists). -/
theorem create_custom_conflict (s : Store) (url cid genId : String) (now : Nat)
    (r : UrlRecord) (hv : isValidUrl url = true) (hcid : cid ≠ "")
    (hr : findUrlById s cid = some r) :
    create s url (some cid) genId now = (.conflict, s) ∧ r ∈ s.urls ∧ r.id = cid := by
  have hne : url ≠ "" := isValidUrl_ne_empty hv
  have hg : (url == "" || !isValidUrl url) = false := by simp [hv, hne]
  refine ⟨?_, List.mem_of_find?_eq_some hr, ?_⟩
  · simp [create, hg, hcid, hr]
  · have := List.find?_some hr
    simpa using this

/-- Witness for C7: creating with the taken custom id `mine` conflicts. -/
theorem create_custom_conflict_witness :
    create ⟨[⟨"mine", "https://b.example", 0⟩], [], 0⟩ "https://a.example" (some "mine")
        "zzzzzzz" 7
      = (.conflict, ⟨[⟨"mine", "https://b.example", 0⟩], [], 0⟩) :=
  (create_custom_conflict ⟨[⟨"mine", "https://b.example", 0⟩], [], 0⟩ "https://a.example"
    "mine" "zzzzzzz" 7 ⟨"mine", "https://b.example", 0⟩ (by decide) (by decide) (by decide)).1

/-! ### C1 — what a uniqueness violation at insert time produces

The route wraps the `INSERT` in `try/catch` and maps every failure to
HTTP 500 (`Internal Server Error`); there is no special case turning a
uniqueness-constraint violation into a 409. -/

/-- C1 (counterexample): a create request with a valid URL and an empty
dedup lookup whose insert hits the uniqueness constraint (the generated
random id collides with an existing row) fails with `Internal`, not
`Conflict` — refuting the claim as stated.  No record is added. -/
theorem create_uniqueness_violation_counterexample :
    isValidUrl "https://a.example" = true ∧
    findUrlByOriginal ⟨[⟨"abc1234", "https://b.example", 0⟩], [], 0⟩ "https://a.example"
      = none ∧
    (create ⟨[⟨"abc1234", "https://b.example", 0⟩], [], 0⟩ "https://a.example" none
        "abc1234" 7).1 = .internal ∧
    (create ⟨[⟨"abc1234", "https://b.example", 0⟩], [], 0⟩ "https://a.example" none
        "abc1234" 7).1 ≠ .conflict ∧
    (create ⟨[⟨"abc1234", "https://b.example", 0⟩], [], 0⟩ "https://a.example" none
        "abc1234" 7).2 = ⟨[⟨"abc1234", "https://b.example", 0⟩], [], 0⟩ := by
  decide

/-- C1 (amended): for every create request that reaches the insert step
(valid URL, no custom id, dedup lookup found nothing), if the insert of
the new record violates the identifier uniqueness constraint, the
operation fails with `Internal` — the catch-all maps every insert
failure to 500 — and no UrlRecord is added. -/
theorem create_uniqueness_violation_internal (s : Store) (url genId : String) (now : Nat)
    (hv : isValidUrl url = true) (hdedup : findUrlByOriginal s url = none)
    (r : UrlRecord) (hr : r ∈ s.urls) (hid : r.id = genId) :
    create s url none genId now = (.internal, s) := by
  have hne : url ≠ "" := isValidUrl_ne_empty hv
  have hg : (url == "" || !isValidUrl url) = false := by simp [hv, hne]
  have hins : insertUrl s genId url now = none := by
    have : s.urls.any (fun r => r.id == genId) = true :=
      List.any_eq_true.mpr ⟨r, hr, by simp [hid]⟩
    simp [insertUrl, this]
  simp [create, hg, hdedup, hins]

/-- Witness for the amended C1 at a concrete colliding store. -/
theorem create_uniqueness_violation_internal_witness :
    create ⟨[⟨"zzzzzzz", "https://c.example", 2⟩], [], 5⟩ "https://d.example" none
        "zzzzzzz" 9
      = (.internal, ⟨[⟨"zzzzzzz", "https://c.example", 2⟩], [], 5⟩) :=
  create_uniqueness_violation_internal ⟨[⟨"zzzzzzz", "https://c.example", 2⟩], [], 5⟩
    "https://d.example" "zzzzzzz" 9 (by decide) (by decide)
    ⟨"zzzzzzz", "https://c.example", 2⟩ (by decide) rfl

/-! ### C10 — lenient handling of the sort parameter -/

/-- C10: any sort value whose (ASCII) lowercase form is not exactly
`asc` — including `random`, the empty string, or an absent parameter —
is silently treated as descending, and the list operation behaves as if
`desc` had been passed; mixed-case `ASC` selects ascending order.  The
parameter is never rejected: `analyticsList` is total in it. -/
theorem sort_param_lenient (s : Store) (pageQ limitQ : Option Int) (v : String) :
    (lowerAscii v ≠ "asc" →
      effSort (some v) = false ∧
      analyticsList s pageQ limitQ (some v) = analyticsList s pageQ limitQ (some "desc")) ∧
    effSort none = false ∧ effSort (some "") = false ∧ effSort (some "ASC") = true := by
  refine ⟨?_, by decide, by decide, by decide⟩
  intro hlow
  have heff : effSort (some v) = false := by
    by_cases hv : v = ""
    · subst hv; decide
    · have hb : (v == "") = false := beq_eq_false_iff_ne.mpr hv
      simp only [effSort, hb]
      rw [if_neg (by simp [hv])]
      exact beq_eq_false_iff_ne.mpr hlow
  refine ⟨heff, ?_⟩
  have hdesc : effSort (some "desc") = false := by decide
  simp [analyticsList, heff, hdesc]

/-- Witness for C10 at the concrete sort value `RanDom`. -/
theorem sort_param_lenient_witness :
    effSort (some "RanDom") = false ∧
    analyticsList ⟨[], [], 0⟩ none none (some "RanDom")
      = analyticsList ⟨[], [], 0⟩ none none (some "desc") :=
  (sort_param_lenient ⟨[], [], 0⟩ none none "RanDom").1 (by decide)

/-! ### C4 — idempotent creation without a custom id -/

/-- C4: without a `custom_id`, creation is idempotent per destination.
If a record whose `original_url` exactly matches the submitted URL
already exists, create returns that record's identifier with
`existing = true` and inserts nothing.  Consequently, starting from a
store with no record for the URL and a non-colliding generated id,
creating the same URL twice yields the same identifier both times
(`existing = false` then `existing = true`) and exactly one stored
record for that destination. -/
theorem create_dedup_idempotent (s : Store) (url genId : String) (now : Nat)
    (hv : isValidUrl url = true) :
    (∀ r, findUrlByOriginal s url = some r →
        create s url none genId now = (.ok r.id true, s) ∧
        r ∈ s.urls ∧ r.original_url = url) ∧
    (findUrlByOriginal s url = none → (∀ r ∈ s.urls, r.id ≠ genId) →
      ∀ genId' now',
        (create s url none genId now).1 = .ok genId false ∧
        (create s url none genId now).2.urls = s.urls ++ [⟨genId, url, now⟩] ∧
        create (create s url none genId now).2 url none genId' now'
          = (.ok genId true, (create s url none genId now).2) ∧
        (create s url none genId now).2.urls.countP
          (fun r => r.original_url == url) = 1) := by
  have hne : url ≠ "" := isValidUrl_ne_empty hv
  have hg : (url == "" || !isValidUrl url) = false := by simp [hv, hne]
  constructor
  · intro r hr
    refine ⟨by simp [create, hg, hr], List.mem_of_find?_eq_some hr, ?_⟩
    have := List.find?_some hr
    simpa using this
  · intro h0 hgen genId' now'
    have hany : s.urls.any (fun r => r.id == genId) = false := by
      rw [List.any_eq_false]
      intro r hr
      simp [hgen r hr]
    have hins : insertUrl s genId url now
        = some { s with urls := s.urls ++ [⟨genId, url, now⟩] } := by
      simp [insertUrl, hany]
    have hc : create s url none genId now
        = (.ok genId false, { s with urls := s.urls ++ [⟨genId, url, now⟩] }) := by
      simp [create, hg, h0, hins]
    have hfind2 :
        findUrlByOriginal { s with urls := s.urls ++ [⟨genId, url, now⟩] } url
          = some ⟨genId, url, now⟩ := by
      unfold findUrlByOriginal at h0 ⊢
      simp only [List.find?_append, h0, Option.none_or]
      simp
    refine ⟨by rw [hc], by rw [hc], ?_, ?_⟩
    · rw [hc]
      simp [create, hg, hfind2]
    · rw [hc]
      have hzero : s.urls.countP (fun r => r.original_url == url) = 0 := by
        rw [List.countP_eq_zero]
        intro r hr
        have := List.find?_eq_none.mp h0 r hr
        simpa using this
      simp [List.countP_append, hzero]

/-- Witness for C4: creating `https://a.example` twice from the empty
store returns the generated id both times and stores it once. -/
theorem create_dedup_idempotent_witness :
    (create ⟨[], [], 0⟩ "https://a.example" none "abc1234" 3).1 = .ok "abc1234" false ∧
    (create (create ⟨[], [], 0⟩ "https://a.example" none "abc1234" 3).2
        "https://a.example" none "zzzzzzz" 8).1 = .ok "abc1234" true := by
  have h := (create_dedup_idempotent ⟨[], [], 0⟩ "https://a.example" "abc1234" 3
    (by decide)).2 (by decide) (by intro r hr; cases hr) "zzzzzzz" 8
  exact ⟨h.1, by rw [h.2.2.1]⟩

/-! ### C6 — redirects record exactly one click event -/

/-- C6: redirecting to an unknown identifier fails with `NotFound` and
writes nothing; redirecting to a known identifier responds with the
stored destination and appends exactly one ClickEvent carrying the
request metadata, so that identifier's click count increases by exactly
one and every other identifier's count is unchanged. -/
theorem redirect_spec (s : Store) (id : String) (m : RequestMeta) (now : Nat) :
    (findUrlById s id = none → redirect s id m now = (.notFound, s)) ∧
    (∀ r, findUrlById s id = some r →
      (redirect s id m now).1 = .redirect r.original_url ∧
      (redirect s id m now).2.urls = s.urls ∧
      (redirect s id m now).2.events = s.events ++
        [⟨s.nextEventId, id, m.ip, m.user_agent, m.country_code, m.referrer, now⟩] ∧
      clickCount (redirect s id m now).2 id = clickCount s id + 1 ∧
      (∀ other, other ≠ id → clickCount (redirect s id m now).2 other = clickCount s other)) := by
  constructor
  · intro h; simp [redirect, h]
  · intro r hr
    refine ⟨by simp [redirect, hr], by simp [redirect, hr], by simp [redirect, hr], ?_, ?_⟩
    · simp [redirect, hr, clickCount, eventsFor, List.filter_append]
    · intro other hother
      have hbeq : (id == other) = false := beq_eq_false_iff_ne.mpr (fun h => hother h.symm)
      simp [redirect, hr, clickCount, eventsFor, List.filter_append, hbeq]

/-- Witness for C6: both branches at concrete stores. -/
theorem redirect_spec_witness :
    redirect ⟨[], [], 0⟩ "nope" ⟨"", "", "", ""⟩ 4 = (.notFound, ⟨[], [], 0⟩) ∧
    clickCount (redirect ⟨[⟨"x", "https://a.example", 0⟩], [], 0⟩ "x"
        ⟨"1.2.3.4", "ua", "US", "ref"⟩ 4).2 "x"
      = clickCount ⟨[⟨"x", "https://a.example", 0⟩], [], 0⟩ "x" + 1 :=
  ⟨(redirect_spec ⟨[], [], 0⟩ "nope" ⟨"", "", "", ""⟩ 4).1 (by decide),
   ((redirect_spec ⟨[⟨"x", "https://a.example", 0⟩], [], 0⟩ "x"
      ⟨"1.2.3.4", "ua", "US", "ref"⟩ 4).2 ⟨"x", "https://a.example", 0⟩
      (by decide)).2.2.2.1⟩

/-! ### C5 — bulk purge -/

/-- C5: purging an empty id set fails with `InvalidInput` and changes
nothing.  Otherwise the response is success echoing the input ids, and in
the single atomic step both deletions apply: the surviving events are
exactly those whose `short_id` is not in the set and the surviving url
rows exactly those whose `id` is not in the set.  Ids matching nothing
are a silent no-op: if no row matches, the store is unchanged (and the
response is still success). -/
theorem purge_spec (s : Store) (ids : List String) :
    (ids = [] → purge s ids = (.invalidInput, s)) ∧
    (ids ≠ [] →
      (purge s ids).1 = .success ids ∧
      (purge s ids).2.nextEventId = s.nextEventId ∧
      (∀ e, e ∈ (purge s ids).2.events ↔ e ∈ s.events ∧ e.short_id ∉ ids) ∧
      (∀ r, r ∈ (purge s ids).2.urls ↔ r ∈ s.urls ∧ r.id ∉ ids) ∧
      ((∀ e ∈ s.events, e.short_id ∉ ids) → (∀ r ∈ s.urls, r.id ∉ ids) →
        (purge s ids).2 = s)) := by
  constructor
  · intro h; simp [purge, h]
  · intro h
    have hne : ids.isEmpty = false := by
      cases ids with
      | nil => exact absurd rfl h
      | cons a l => rfl
    refine ⟨by simp [purge, hne], by simp [purge, hne], ?_, ?_, ?_⟩
    · intro e
      simp [purge, hne, List.mem_filter, List.elem_iff]
    · intro r
      simp [purge, hne, List.mem_filter, List.elem_iff]
    · intro he hu
      have h1 : s.events.filter (fun e => !decide (e.short_id ∈ ids)) = s.events := by
        rw [List.filter_eq_self]
        intro e hee
        simpa using he e hee
      have h2 : s.urls.filter (fun r => !decide (r.id ∈ ids)) = s.urls := by
        rw [List.filter_eq_self]
        intro r hrr
        simpa using hu r hrr
      simp [purge, hne, h1, h2]

/-- Witness for C5: both branches at concrete stores. -/
theorem purge_spec_witness :
    purge ⟨[⟨"x", "https://a.example", 0⟩], [], 1⟩ [] =
      (.invalidInput, ⟨[⟨"x", "https://a.example", 0⟩], [], 1⟩) ∧
    (purge ⟨[⟨"x", "https://a.example", 0⟩], [⟨1, "x", "", "", "", "", 5⟩], 2⟩ ["x"]).1
      = .success ["x"] ∧
    (purge ⟨[⟨"x", "https://a.example", 0⟩], [], 1⟩ ["ghost"]).2
      = ⟨[⟨"x", "https://a.example", 0⟩], [], 1⟩ :=
  ⟨(purge_spec ⟨[⟨"x", "https://a.example", 0⟩], [], 1⟩ []).1 rfl,
   ((purge_spec ⟨[⟨"x", "https://a.example", 0⟩], [⟨1, "x", "", "", "", "", 5⟩], 2⟩
      ["x"]).2 (by decide)).1,
   ((purge_spec ⟨[⟨"x", "https://a.example", 0⟩], [], 1⟩ ["ghost"]).2
      (by decide)).2.2.2.2 (by decide) (by decide)⟩

/-! ### C8 — the per-identifier detail operation -/

theorem evDescLe_trans (a b c : ClickEvent) (hab : evDescLe a b = true)
    (hbc : evDescLe b c = true) : evDescLe a c = true := by
  simp only [evDescLe, decide_eq_true_eq] at *
  omega

theorem evDescLe_total (a b : ClickEvent) : (evDescLe a b || evDescLe b a) = true := by
  simp only [evDescLe, Bool.or_eq_true, decide_eq_true_eq]
  omega

theorem sortEventsDesc_pairwise (l : List ClickEvent) :
    List.Pairwise (fun a b => b.timestamp ≤ a.timestamp) (sortEventsDesc l) := by
  have h := List.sorted_mergeSort evDescLe_trans evDescLe_total l
  exact h.imp (fun hab => by simpa [evDescLe] using hab)

/-- C8: the detail response returns at most the 1000 most-recent events
of the identifier, ordered newest-first; every returned event is one of
the identifier's events; every omitted event of the identifier is no
newer than any returned one; `click_count` equals the number of events
returned (so at most 1000 even when more exist); and `original_url` is
the stored destination when the UrlRecord still exists (and is not the
empty string, which the route's `|| null` maps to null like an absent
row), `none` otherwise. -/
theorem detail_spec (s : Store) (id : String) :
    (getDetail s id).click_count = (getDetail s id).analytics.length ∧
    (getDetail s id).analytics.length = min 1000 (clickCount s id) ∧
    List.Pairwise (fun a b => b.timestamp ≤ a.timestamp) (getDetail s id).analytics ∧
    (∀ e ∈ (getDetail s id).analytics, e ∈ eventsFor s id) ∧
    (∀ e ∈ eventsFor s id, e ∉ (getDetail s id).analytics →
      ∀ e' ∈ (getDetail s id).analytics, e.timestamp ≤ e'.timestamp) ∧
    (findUrlById s id = none → (getDetail s id).original_url = none) ∧
    (∀ r, findUrlById s id = some r → r.original_url ≠ "" →
      (getDetail s id).original_url = some r.original_url) := by
  have hperm : (sortEventsDesc (eventsFor s id)).Perm (eventsFor s id) :=
    List.mergeSort_perm (eventsFor s id) evDescLe
  have hsorted := sortEventsDesc_pairwise (eventsFor s id)
  have hdata : (getDetail s id).analytics = (sortEventsDesc (eventsFor s id)).take 1000 := rfl
  refine ⟨rfl, ?_, ?_, ?_, ?_, ?_, ?_⟩
  · rw [hdata, List.length_take, sortEventsDesc, List.length_mergeSort]
    rfl
  · rw [hdata]
    exact List.Pairwise.sublist (List.take_sublist 1000 _) hsorted
  · intro e he
    rw [hdata] at he
    exact hperm.subset ((List.take_sublist 1000 _).subset he)
  · intro e hmem hnotin e' he'
    rw [hdata] at hnotin he'
    have hes : e ∈ sortEventsDesc (eventsFor s id) := hperm.mem_iff.mpr hmem
    rw [← List.take_append_drop 1000 (sortEventsDesc (eventsFor s id))] at hes
    rcases List.mem_append.mp hes with hin | hdrop
    · exact absurd hin hnotin
    · have hps := hsorted
      rw [← List.take_append_drop 1000 (sortEventsDesc (eventsFor s id))] at hps
      exact (List.pairwise_append.mp hps).2.2 e' he' e hdrop
  · intro h
    simp [getDetail, h]
  · intro r hr hne
    have hb : (r.original_url == "") = false := beq_eq_false_iff_ne.mpr hne
    simp [getDetail, hr, hb]

/-- Witness for C8 at a concrete two-event store. -/
theorem detail_spec_witness :
    (getDetail ⟨[⟨"x", "https://a.example", 0⟩],
        [⟨1, "x", "ip1", "ua1", "US", "r1", 5⟩], 2⟩ "x").original_url
      = some "https://a.example" ∧
    (∀ e ∈ (getDetail ⟨[⟨"x", "https://a.example", 0⟩],
        [⟨1, "x", "ip1", "ua1", "US", "r1", 5⟩], 2⟩ "x").analytics,
      e ∈ eventsFor ⟨[⟨"x", "https://a.example", 0⟩],
        [⟨1, "x", "ip1", "ua1", "US", "r1", 5⟩], 2⟩ "x") :=
  ⟨(detail_spec ⟨[⟨"x", "https://a.example", 0⟩],
      [⟨1, "x", "ip1", "ua1", "US", "r1", 5⟩], 2⟩ "x").2.2.2.2.2.2
      ⟨"x", "https://a.example", 0⟩ (by decide) (by decide),
   (detail_spec ⟨[⟨"x", "https://a.example", 0⟩],
      [⟨1, "x", "ip1", "ua1", "US", "r1", 5⟩], 2⟩ "x").2.2.2.1⟩

/-! ### C3 — pagination of the list operation -/

theorem rowLe_trans (asc : Bool) (a b c : SummaryRow) (hab : rowLe asc a b = true)
    (hbc : rowLe asc b c = true) : rowLe asc a c = true := by
  cases asc <;> simp only [rowLe, if_true, if_false, Bool.false_eq_true,
    decide_eq_true_eq] at * <;> omega

theorem rowLe_total (asc : Bool) (a b : SummaryRow) :
    (rowLe asc a b || rowLe asc b a) = true := by
  cases asc <;> simp only [rowLe, if_true, if_false, Bool.false_eq_true,
    Bool.or_eq_true, decide_eq_true_eq] <;> omega

theorem sortedSummaryRows_pairwise (s : Store) (asc : Bool) :
    List.Pairwise (fun a b => rowLe asc a b = true) (sortedSummaryRows s asc) :=
  List.sorted_mergeSort (rowLe_trans asc) (rowLe_total asc) (summaryRows s)

/-- C3: the effective page is `max 1 page` (default 1), the effective
limit is the requested limit clamped to `[1, 500]` (default 50), the data
is the summary ordered by `last_clicked` in the requested direction and
sliced at offset `(page - 1) * limit` taking at most `limit` rows (so a
page never holds more than `limit` rows), and `total` is the count of
distinct `short_id` values across all analytics data — the same value for
every page/limit/sort combination over the same store. -/
theorem analytics_pagination_spec (s : Store) (pageQ limitQ : Option Int)
    (sortQ : Option String) :
    (analyticsList s pageQ limitQ sortQ).page = max 1 (pageQ.getD 1) ∧
    (analyticsList s pageQ limitQ sortQ).limit = max 1 (min (limitQ.getD 50) 500) ∧
    1 ≤ (analyticsList s pageQ limitQ sortQ).page ∧
    1 ≤ (analyticsList s pageQ limitQ sortQ).limit ∧
    (analyticsList s pageQ limitQ sortQ).limit ≤ 500 ∧
    (analyticsList s pageQ limitQ sortQ).data =
      ((sortedSummaryRows s (effSort sortQ)).drop
          (((analyticsList s pageQ limitQ sortQ).page - 1) *
            (analyticsList s pageQ limitQ sortQ).limit).toNat).take
        (analyticsList s pageQ limitQ sortQ).limit.toNat ∧
    (analyticsList s pageQ limitQ sortQ).data.length
      ≤ (analyticsList s pageQ limitQ sortQ).limit.toNat ∧
    List.Pairwise (fun a b => rowLe (effSort sortQ) a b = true)
      (analyticsList s pageQ limitQ sortQ).data ∧
    (analyticsList s pageQ limitQ sortQ).total = countDistinctShortIds s ∧
    (∀ pageQ' limitQ' sortQ', (analyticsList s pageQ' limitQ' sortQ').total
      = (analyticsList s pageQ limitQ sortQ).total) := by
  refine ⟨rfl, rfl, le_max_left 1 _, le_max_left 1 _, ?_, rfl, ?_, ?_, rfl,
    fun _ _ _ => rfl⟩
  · exact max_le (by norm_num) (min_le_right _ 500)
  · show (((sortedSummaryRows s (effSort sortQ)).drop _).take _).length ≤ _
    rw [List.length_take]
    exact min_le_left _ _
  · show List.Pairwise _ (((sortedSummaryRows s (effSort sortQ)).drop _).take _)
    exact List.Pairwise.sublist ((List.take_sublist _ _).trans (List.drop_sublist _ _))
      (sortedSummaryRows_pairwise s (effSort sortQ))

/-! ### C2 — the grouped summary rows

The summary query joins `analytics` with `urls` by an inner join, so a
`short_id` whose UrlRecord has been deleted contributes no row at all;
the claim as stated (a row for every `short_id` with at least one event)
fails on such stores.  Under the schema's primary-key invariant on
`urls.id`, rows are produced exactly for the ids that have both events
and a surviving UrlRecord, with the stated aggregates. -/

theorem mem_joinedRows {s : Store} {e : ClickEvent} {r : UrlRecord} :
    (e, r) ∈ joinedRows s ↔ e ∈ s.events ∧ r ∈ s.urls ∧ r.id = e.short_id := by
  constructor
  · intro h
    rcases List.mem_flatMap.mp h with ⟨e', he', hmem⟩
    rcases List.mem_map.mp hmem with ⟨r', hr', heq⟩
    rw [Prod.mk.injEq] at heq
    obtain ⟨rfl, rfl⟩ := heq
    rcases List.mem_filter.mp hr' with ⟨hr, hbeq⟩
    exact ⟨he', hr, by simpa using hbeq⟩
  · rintro ⟨he, hr, hid⟩
    refine List.mem_flatMap.mpr ⟨e, he, List.mem_map.mpr ⟨r, ?_, rfl⟩⟩
    exact List.mem_filter.mpr ⟨hr, by simp [hid]⟩

theorem filter_id_eq_single {l : List UrlRecord}
    (hPK : (l.map (fun r => r.id)).Nodup) {r : UrlRecord} (hr : r ∈ l) :
    l.filter (fun x => x.id == r.id) = [r] := by
  induction l with
  | nil => cases hr
  | cons a l ih =>
    rw [List.map_cons, List.nodup_cons] at hPK
    obtain ⟨ha, hPK'⟩ := hPK
    rcases List.mem_cons.mp hr with rfl | hr'
    · rw [List.filter_cons, if_pos (by simp)]
      have hnil : l.filter (fun x => x.id == r.id) = [] := by
        rw [List.filter_eq_nil_iff]
        intro x hx hbeq
        exact ha ((eq_of_beq hbeq) ▸ List.mem_map_of_mem (fun u => u.id) hx)
      rw [hnil]
    · have hne : (a.id == r.id) = false := by
        apply beq_eq_false_iff_ne.mpr
        intro h
        exact ha (by rw [h]; exact List.mem_map_of_mem (fun u => u.id) hr')
      rw [List.filter_cons, if_neg (by simp [hne])]
      exact ih hPK' hr'

theorem join_filter_group (urls : List UrlRecord)
    (hPK : (urls.map (fun r => r.id)).Nodup) (r : UrlRecord) (hr : r ∈ urls) :
    ∀ events : List ClickEvent,
      ((events.flatMap (fun e => (urls.filter (fun x => x.id == e.short_id)).map
            (fun x => (e, x)))).filter
          (fun p => p.1.short_id == r.id && p.2.original_url == r.original_url)).map
        (fun p => p.1)
      = events.filter (fun e => e.short_id == r.id) := by
  intro events
  induction events with
  | nil => rfl
  | cons e es ih =>
    rw [List.flatMap_cons, List.filter_append, List.map_append, ih, List.filter_cons]
    by_cases he : e.short_id = r.id
    · rw [if_pos (by simp [he])]
      have hfil : urls.filter (fun x => x.id == e.short_id) = [r] := by
        rw [he]
        exact filter_id_eq_single hPK hr
      rw [hfil]
      simp [he]
    · rw [if_neg (by simp [he])]
      have hnil : ((urls.filter (fun x => x.id == e.short_id)).map (fun x => (e, x))).filter
          (fun p => p.1.short_id == r.id && p.2.original_url == r.original_url) = [] := by
        rw [List.filter_eq_nil_iff]
        intro p hp
        rcases List.mem_map.mp hp with ⟨x, _, rfl⟩
        simp [he]
      rw [hnil]
      simp

theorem groupFor_eq_eventsFor {s : Store}
    (hPK : (s.urls.map (fun r => r.id)).Nodup) {r : UrlRecord} (hr : r ∈ s.urls) :
    groupFor s (r.id, r.original_url) = eventsFor s r.id :=
  join_filter_group s.urls hPK r hr s.events

theorem mem_groupKeys {s : Store} {k : String × String} :
    k ∈ groupKeys s ↔
      ∃ r ∈ s.urls, ∃ e ∈ s.events, e.short_id = r.id ∧ k = (r.id, r.original_url) := by
  unfold groupKeys
  rw [List.mem_dedup, List.mem_map]
  constructor
  · rintro ⟨⟨e, r⟩, hp, rfl⟩
    rcases mem_joinedRows.mp hp with ⟨he, hr, hid⟩
    exact ⟨r, hr, e, he, hid.symm, by rw [hid]⟩
  · rintro ⟨r, hr, e, he, hsid, rfl⟩
    refine ⟨(e, r), mem_joinedRows.mpr ⟨he, hr, hsid.symm⟩, ?_⟩
    simp [hsid]

theorem countP_beq_of_nodup {α : Type} [BEq α] [LawfulBEq α] {l : List α}
    (h : l.Nodup) {a : α} (ha : a ∈ l) : l.countP (fun x => x == a) = 1 := by
  induction l with
  | nil => cases ha
  | cons b l ih =>
    rw [List.nodup_cons] at h
    obtain ⟨hb, h'⟩ := h
    rw [List.countP_cons]
    rcases List.mem_cons.mp ha with rfl | ha'
    · have hzero : l.countP (fun x => x == a) = 0 := by
        rw [List.countP_eq_zero]
        intro x hx hbeq
        exact hb (eq_of_beq hbeq ▸ hx)
      simp [hzero]
    · have hne : (b == a) = false := by
        apply beq_eq_false_iff_ne.mpr
        rintro rfl
        exact hb ha'
      simp [hne, ih h' ha']

theorem rowFor_short_id (s : Store) (a b : String) : (rowFor s (a, b)).short_id = a := rfl

theorem rowFor_original_url (s : Store) (a b : String) :
    (rowFor s (a, b)).original_url = b := rfl

theorem rowFor_click_count (s : Store) (a b : String) :
    (rowFor s (a, b)).click_count = (groupFor s (a, b)).length := rfl

theorem rowFor_last_clicked (s : Store) (a b : String) :
    (rowFor s (a, b)).last_clicked
      = sqlMax 0 ((groupFor s (a, b)).map (fun e => e.timestamp)) := rfl

theorem rowFor_first_clicked (s : Store) (a b : String) :
    (rowFor s (a, b)).first_clicked
      = sqlMin 0 ((groupFor s (a, b)).map (fun e => e.timestamp)) := rfl

theorem rowFor_latest_referrer (s : Store) (a b : String) :
    (rowFor s (a, b)).latest_referrer
      = strMax (((groupFor s (a, b)).filter
          (fun e => e.timestamp == sqlMax 0 ((eventsFor s a).map (fun e => e.timestamp)))).map
            (fun e => e.referrer)) := rfl

theorem rowFor_country_code (s : Store) (a b : String) :
    (rowFor s (a, b)).country_code
      = strMax ((groupFor s (a, b)).map (fun e => e.country_code)) := rfl

/-- C2 (counterexample): the list aggregation does not produce a row for
every `short_id` with at least one ClickEvent — a store holding an event
whose UrlRecord is gone produces no summary row at all for it, because
the query's inner join discards it. -/
theorem analytics_summary_counterexample :
    eventsFor ⟨[], [⟨1, "x", "", "", "", "", 5⟩], 2⟩ "x" ≠ [] ∧
    summaryRows ⟨[], [⟨1, "x", "", "", "", "", 5⟩], 2⟩ = [] := by
  decide

/-- C2 (amended): in a store satisfying the schema's primary-key
invariant on `urls.id`, the list operation (before pagination) produces
exactly one summary row per distinct `short_id` that has at least one
ClickEvent and whose UrlRecord still exists; such a row always carries
the originating `original_url`, its `click_count` is the total event
count for that id, `first_clicked`/`last_clicked` are the min/max event
timestamps, `latest_referrer` is the referrer of an event whose timestamp
equals the maximum for that id, and `country_code` is the largest
`country_code` value over all events for that id (not the most recent
one). -/
theorem analytics_summary_amended (s : Store)
    (hPK : (s.urls.map (fun r => r.id)).Nodup) :
    (∀ row ∈ summaryRows s,
      ∃ r ∈ s.urls, r.id = row.short_id ∧ row.original_url = r.original_url ∧
        eventsFor s row.short_id ≠ [] ∧
        row.click_count = clickCount s row.short_id ∧
        (∀ e ∈ eventsFor s row.short_id, e.timestamp ≤ row.last_clicked) ∧
        (∃ e ∈ eventsFor s row.short_id, e.timestamp = row.last_clicked) ∧
        (∀ e ∈ eventsFor s row.short_id, row.first_clicked ≤ e.timestamp) ∧
        (∃ e ∈ eventsFor s row.short_id, e.timestamp = row.first_clicked) ∧
        (∃ e ∈ eventsFor s row.short_id,
          e.timestamp = row.last_clicked ∧ row.latest_referrer = e.referrer) ∧
        (∃ e ∈ eventsFor s row.short_id, row.country_code = e.country_code) ∧
        (∀ e ∈ eventsFor s row.short_id, e.country_code.data ≤ row.country_code.data)) ∧
    (∀ sid, (∃ e ∈ s.events, e.short_id = sid) → (∃ r ∈ s.urls, r.id = sid) →
      (summaryRows s).countP (fun row => row.short_id == sid) = 1) := by
  constructor
  · intro row hrow
    rcases List.mem_map.mp hrow with ⟨k, hk, rfl⟩
    rcases mem_groupKeys.mp hk with ⟨r, hr, e₀, he₀, hsid, rfl⟩
    have hgrp : groupFor s (r.id, r.original_url) = eventsFor s r.id :=
      groupFor_eq_eventsFor hPK hr
    have hmem₀ : e₀ ∈ eventsFor s r.id :=
      List.mem_filter.mpr ⟨he₀, by simp [hsid]⟩
    have hne : eventsFor s r.id ≠ [] := by
      intro h
      rw [h] at hmem₀
      cases hmem₀
    have hts_ne : (eventsFor s r.id).map (fun e => e.timestamp) ≠ [] := by
      intro h
      exact hne (List.map_eq_nil_iff.mp h)
    have hlastmem : ∃ e ∈ eventsFor s r.id,
        e.timestamp = sqlMax 0 ((eventsFor s r.id).map (fun e => e.timestamp)) := by
      rcases List.mem_map.mp (sqlMax_mem 0 hts_ne) with ⟨e, he, heq⟩
      exact ⟨e, he, heq⟩
    refine ⟨r, hr, (rowFor_short_id s r.id r.original_url).symm,
      rowFor_original_url s r.id r.original_url, ?_, ?_, ?_, ?_, ?_, ?_, ?_, ?_, ?_⟩
    · rw [rowFor_short_id]; exact hne
    · rw [rowFor_short_id, rowFor_click_count, hgrp]; rfl
    · intro e he
      rw [rowFor_short_id] at he
      rw [rowFor_last_clicked, hgrp]
      exact le_sqlMax 0 e.timestamp (List.mem_map_of_mem (fun e => e.timestamp) he)
    · rw [rowFor_short_id, rowFor_last_clicked, hgrp]
      exact hlastmem
    · intro e he
      rw [rowFor_short_id] at he
      rw [rowFor_first_clicked, hgrp]
      exact sqlMin_le 0 e.timestamp (List.mem_map_of_mem (fun e => e.timestamp) he)
    · rw [rowFor_short_id, rowFor_first_clicked, hgrp]
      rcases List.mem_map.mp (sqlMin_mem 0 hts_ne) with ⟨e, he, heq⟩
      exact ⟨e, he, heq⟩
    · rw [rowFor_short_id, rowFor_latest_referrer, rowFor_last_clicked, hgrp]
      rcases hlastmem with ⟨em, hem, hts⟩
      have hfmem : em ∈ (eventsFor s r.id).filter
          (fun e => e.timestamp == sqlMax 0 ((eventsFor s r.id).map (fun e => e.timestamp))) :=
        List.mem_filter.mpr ⟨hem, by simp [hts]⟩
      have hfne : ((eventsFor s r.id).filter
          (fun e => e.timestamp == sqlMax 0 ((eventsFor s r.id).map
            (fun e => e.timestamp)))).map (fun e => e.referrer) ≠ [] := by
        intro h
        rw [List.map_eq_nil_iff.mp h] at hfmem
        cases hfmem
      rcases List.mem_map.mp (strMax_mem hfne) with ⟨e', he', heq⟩
      rcases List.mem_filter.mp he' with ⟨he'', hbeq⟩
      exact ⟨e', he'', by simpa using hbeq, heq.symm⟩
    · rw [rowFor_short_id, rowFor_country_code, hgrp]
      have hcc_ne : (eventsFor s r.id).map (fun e => e.country_code) ≠ [] := by
        intro h
        exact hne (List.map_eq_nil_iff.mp h)
      rcases List.mem_map.mp (strMax_mem hcc_ne) with ⟨e, he, heq⟩
      exact ⟨e, he, heq.symm⟩
    · intro e he
      rw [rowFor_short_id] at he
      rw [rowFor_country_code, hgrp]
      exact le_strMax e.country_code
        (List.mem_map_of_mem (fun e => e.country_code) he)
  · rintro sid ⟨e₀, he₀, hsid⟩ ⟨r, hr, hrid⟩
    rw [summaryRows, List.countP_map]
    have hcomp : ((fun row => row.short_id == sid) ∘ rowFor s)
        = fun k : String × String => k.1 == sid := by
      funext k
      rfl
    rw [hcomp]
    have hmem0 : (sid, r.original_url) ∈ groupKeys s := by
      apply mem_groupKeys.mpr
      exact ⟨r, hr, e₀, he₀, by rw [hsid, hrid], by rw [hrid]⟩
    have huniq : ∀ k ∈ groupKeys s, (k.1 == sid) = true ↔ k = (sid, r.original_url) := by
      intro k hk
      constructor
      · intro h1
        rcases mem_groupKeys.mp hk with ⟨r', hr', e', he', hs', rfl⟩
        have hk1 : r'.id = sid := by simpa using h1
        have hre : r' = r := List.inj_on_of_nodup_map hPK hr' hr (by rw [hk1, hrid])
        rw [hre, hrid]
      · rintro rfl
        simp
    have hcount : (groupKeys s).countP (fun k => k.1 == sid)
        = (groupKeys s).countP (fun k => k == (sid, r.original_url)) := by
      apply List.countP_congr
      intro k hk
      rw [huniq k hk]
      exact beq_iff_eq.symm
    rw [hcount]
    exact countP_beq_of_nodup (by unfold groupKeys; exact List.nodup_dedup _) hmem0

/-- Witness for the amended C2 at a concrete healthy store. -/
theorem analytics_summary_amended_witness :
    (summaryRows ⟨[⟨"x", "https://a.example", 0⟩],
        [⟨1, "x", "", "", "US", "r1", 5⟩], 2⟩).countP
      (fun row => row.short_id == "x") = 1 :=
  (analytics_summary_amended ⟨[⟨"x", "https://a.example", 0⟩],
      [⟨1, "x", "", "", "US", "r1", 5⟩], 2⟩ (by decide)).2 "x"
    ⟨⟨1, "x", "", "", "US", "r1", 5⟩, by decide, rfl⟩
    ⟨⟨"x", "https://a.example", 0⟩, by decide, rfl⟩

end UrlShortener
